import Mathlib

set_option maxRecDepth 40000

/-!
Verification development for the `valve-server-query` crate (src/src/lib.rs).

Shallow embedding conventions:
* A Rust byte (`u8`) is modelled as a `Nat`; byte buffers are `List Nat`.
  Theorems that need the u8 range state `< 256` hypotheses explicitly.
* A Rust iterator over bytes is modelled by explicit state passing: each
  decoder takes the remaining list and returns the value together with the
  rest of the list.
* A Rust panic (`panic!`, `.expect(..)`, out-of-bounds indexing/slicing) is a
  process abort, not a value returned to the caller.  It is modelled by the
  `Panic.abort` constructor; `Panic.ret` models normal return.
* Functions that additionally return `io::Error` to the caller (the
  `Server` operations) use `RustResult`, which distinguishes a returned
  `Err` (`ioErr`) from a process abort (`abort`).
* `f32` values are never interpreted by the crate's logic, only carried;
  a float is modelled as its four raw little-endian bytes.
-/

/-- Outcome of a Rust computation that can only panic: `ret` models a normal
return, `abort` models a process abort (a Rust panic via `panic!` or
`Option::expect` or out-of-bounds slicing). -/
inductive Panic (α : Type) where
  | ret : α → Panic α
  | abort : Panic α
deriving DecidableEq, Repr

namespace Panic

def bind {α β : Type} : Panic α → (α → Panic β) → Panic β
  | .ret a, f => f a
  | .abort, _ => .abort

instance : Monad Panic where
  pure := Panic.ret
  bind := Panic.bind

@[simp] theorem bind_ret {α β : Type} (a : α) (f : α → Panic β) :
    Panic.bind (Panic.ret a) f = f a := rfl

@[simp] theorem bind_abort {α β : Type} (f : α → Panic β) :
    Panic.bind (Panic.abort : Panic α) f = Panic.abort := rfl

@[simp] theorem bind_eq {α β : Type} (x : Panic α) (f : α → Panic β) :
    x >>= f = Panic.bind x f := rfl

@[simp] theorem pure_eq {α : Type} (a : α) : (pure a : Panic α) = Panic.ret a := rfl

end Panic

/-- Outcome of a `Server` operation: `ok`/`ioErr` model the `Ok`/`Err` cases of
the Rust `Result<_, io::Error>` actually returned to the caller (an `ioErr`
arises from `socket.recv`/`send_to` failing, e.g. a timeout, propagated by
the `?` operator), while `abort` models a process abort (panic). -/
inductive RustResult (α : Type) where
  | ok : α → RustResult α
  | ioErr : RustResult α
  | abort : RustResult α
deriving DecidableEq, Repr

/-- Lifts a decoder outcome into an operation outcome: a panic stays a
process abort and is in particular not an `Err` value. -/
def liftPanic {α : Type} : Panic α → RustResult α
  | .ret a => .ok a
  | .abort => .abort

/-- Models `PACKET_SIZE` (src/src/lib.rs:26). -/
def PACKET_SIZE : Nat := 1400

/-- Models `SIMPLE_RESPONSE_HEADER` (src/src/lib.rs:28). -/
def SIMPLE_RESPONSE_HEADER : List Nat := [255, 255, 255, 255]

/-- Models `MULTI_PACKET_RESPONSE_HEADER` (src/src/lib.rs:30). -/
def MULTI_PACKET_RESPONSE_HEADER : List Nat := [255, 255, 255, 254]

namespace types

/-- Models `types::get_byte` (src/src/lib.rs:65-70): `bytes.next().expect(..)`
panics (aborts) when the cursor is exhausted. -/
def get_byte : List Nat → Panic (Nat × List Nat)
  | [] => .abort
  | b :: rest => .ret (b, rest)

/-- Little-endian decoding of two bytes as an `i16` (`Short::from_le_bytes`). -/
def short_of_le_bytes (b0 b1 : Nat) : Int :=
  if b0 + 256 * b1 < 32768 then ((b0 + 256 * b1 : Nat) : Int)
  else ((b0 + 256 * b1 : Nat) : Int) - 65536

/-- Models `types::get_short` (src/src/lib.rs:71-76): two `next().expect(..)`
calls, so fewer than two remaining bytes abort. -/
def get_short : List Nat → Panic (Int × List Nat)
  | b0 :: b1 :: rest => .ret (short_of_le_bytes b0 b1, rest)
  | _ => .abort

/-- Little-endian decoding of four bytes as an `i32` (`Long::from_le_bytes`). -/
def long_of_le_bytes (b0 b1 b2 b3 : Nat) : Int :=
  if b0 + 256 * b1 + 65536 * b2 + 16777216 * b3 < 2147483648 then
    ((b0 + 256 * b1 + 65536 * b2 + 16777216 * b3 : Nat) : Int)
  else ((b0 + 256 * b1 + 65536 * b2 + 16777216 * b3 : Nat) : Int) - 4294967296

/-- Models `types::get_long` (src/src/lib.rs:77-87). -/
def get_long : List Nat → Panic (Int × List Nat)
  | b0 :: b1 :: b2 :: b3 :: rest => .ret (long_of_le_bytes b0 b1 b2 b3, rest)
  | _ => .abort

/-- Models `types::get_float` (src/src/lib.rs:88-98); the `f32` value is kept
as its four raw little-endian bytes, which the crate never interprets. -/
def get_float : List Nat → Panic (List Nat × List Nat)
  | b0 :: b1 :: b2 :: b3 :: rest => .ret ([b0, b1, b2, b3], rest)
  | _ => .abort

/-- Little-endian decoding of eight bytes as a `u64`
(`LongLong::from_le_bytes`). -/
def longlong_of_le_bytes (b0 b1 b2 b3 b4 b5 b6 b7 : Nat) : Nat :=
  b0 + 256 * b1 + 65536 * b2 + 16777216 * b3 + 4294967296 * b4 +
    1099511627776 * b5 + 281474976710656 * b6 + 72057594037927936 * b7

/-- Models `types::get_longlong` (src/src/lib.rs:99-113). -/
def get_longlong : List Nat → Panic (Nat × List Nat)
  | b0 :: b1 :: b2 :: b3 :: b4 :: b5 :: b6 :: b7 :: rest =>
    .ret (longlong_of_le_bytes b0 b1 b2 b3 b4 b5 b6 b7, rest)
  | _ => .abort

/-- Models `types::get_string` (src/src/lib.rs:114-128): consumes bytes up to
and including a zero terminator, returning the bytes before it; exhausting
the cursor before a terminator panics (aborts). -/
def get_string : List Nat → Panic (List Nat × List Nat)
  | [] => .abort
  | b :: rest =>
    if b = 0 then .ret ([], rest)
    else
      match get_string rest with
      | .abort => .abort
      | .ret (s, l) => .ret (b :: s, l)

theorem get_string_length_lt {l : List Nat} {s rest : List Nat}
    (h : get_string l = .ret (s, rest)) : rest.length < l.length := by
  induction l generalizing s rest with
  | nil => simp [get_string] at h
  | cons b t ih =>
    by_cases hb : b = 0
    · simp [get_string, hb] at h
      simp [← h.2, List.length_cons, Nat.lt_succ_self]
    · simp only [get_string, if_neg hb] at h
      cases hg : get_string t with
      | abort => rw [hg] at h; exact absurd h (by simp)
      | ret p =>
        rw [hg] at h
        obtain ⟨s', l'⟩ := p
        simp only [Panic.ret.injEq, Prod.mk.injEq] at h
        have := ih hg
        rw [← h.2]
        exact Nat.lt_trans this (Nat.lt_succ_self _)

theorem get_byte_length_lt {l : List Nat} {b : Nat} {rest : List Nat}
    (h : get_byte l = .ret (b, rest)) : rest.length < l.length := by
  cases l with
  | nil => simp [get_byte] at h
  | cons x t =>
    simp only [get_byte, Panic.ret.injEq, Prod.mk.injEq] at h
    rw [← h.2]; exact Nat.lt_succ_self _

theorem get_long_length_lt {l : List Nat} {v : Int} {rest : List Nat}
    (h : get_long l = .ret (v, rest)) : rest.length < l.length := by
  match l with
  | [] | [_] | [_, _] | [_, _, _] => simp [get_long] at h
  | b0 :: b1 :: b2 :: b3 :: t =>
    simp only [get_long, Panic.ret.injEq, Prod.mk.injEq] at h
    rw [← h.2]; simp [List.length_cons]; omega

theorem get_float_length_lt {l : List Nat} {v rest : List Nat}
    (h : get_float l = .ret (v, rest)) : rest.length < l.length := by
  match l with
  | [] | [_] | [_, _] | [_, _, _] => simp [get_float] at h
  | b0 :: b1 :: b2 :: b3 :: t =>
    simp only [get_float, Panic.ret.injEq, Prod.mk.injEq] at h
    rw [← h.2]; simp [List.length_cons]; omega

end types

namespace utils

/-- Helper loop of `compress_trailing_null_bytes`: models the Rust
`pop`-loop over the reversed tail — pops elements while the current `last`
is zero and elements remain, returning the final `last` and the remaining
reversed tail. -/
def popZeros : Nat → List Nat → Nat × List Nat
  | last, [] => (last, [])
  | last, b :: r => if last = 0 then popZeros b r else (last, b :: r)

/-- Models `utils::compress_trailing_null_bytes` (src/src/lib.rs:1038-1055) as
a function on the vector value: empty and one-element vectors are returned
unchanged, as are vectors not ending in a zero byte; otherwise trailing
zero bytes are popped until a non-zero byte (or emptiness) is reached and
then that byte and a single zero byte are pushed back. -/
def compress_trailing_null_bytes (bytes : List Nat) : List Nat :=
  if bytes.length = 0 ∨ bytes.length = 1 then bytes
  else if bytes.getLast? ≠ some 0 then bytes
  else
    match bytes.reverse with
    | [] => bytes
    | b :: r =>
      let p := popZeros b r
      p.2.reverse ++ [p.1, 0]

/-- Models `utils::get_multipacket_data` (src/src/lib.rs:1026-1036): reads the
4-byte header, the 4-byte answer id, the 1-byte total and the 1-byte packet
id from the front of the buffer. -/
def get_multipacket_data (buffer : List Nat) : Panic (Int × Nat × Nat) := do
  let (_header, l) ← types.get_long buffer
  let (answer_id, l) ← types.get_long l
  let (total, l) ← types.get_byte l
  let (packet_id, _l) ← types.get_byte l
  pure (answer_id, total, packet_id)

end utils

/-- Models `std::collections::HashMap::insert` on an association list: an
existing binding for the key is overwritten, otherwise the new binding is
appended.  The crate only ever observes a `HashMap` through `len`,
`insert` and draining into a list that is immediately sorted by key, so
the association-list order never matters. -/
def hm_insert {κ ν : Type} [DecidableEq κ] (k : κ) (v : ν) :
    List (κ × ν) → List (κ × ν)
  | [] => [(k, v)]
  | (k', v') :: rest =>
    if k = k' then (k, v) :: rest else (k', v') :: hm_insert k v rest

namespace models

/-- Models `models::Player` (src/src/lib.rs:136-141); the `f32` duration is
kept as its four raw little-endian bytes. -/
structure Player where
  index : Nat
  name : List Nat
  score : Int
  duration : List Nat
deriving DecidableEq, Repr

/-- Models `Player::from_iter_bytes` (src/src/lib.rs:175-190). -/
def Player.from_iter_bytes (l : List Nat) : Panic (Player × List Nat) := do
  let (index, l) ← types.get_byte l
  let (name, l) ← types.get_string l
  let (score, l) ← types.get_long l
  let (duration, l) ← types.get_float l
  pure (⟨index, name, score, duration⟩, l)

theorem Player.from_iter_bytes_length_lt {l : List Nat} {p : Player}
    {rest : List Nat} (h : Player.from_iter_bytes l = .ret (p, rest)) :
    rest.length < l.length := by
  unfold Player.from_iter_bytes at h
  simp only [Panic.bind_eq, Panic.pure_eq] at h
  cases h1 : types.get_byte l with
  | abort => rw [h1] at h; exact absurd h (by simp)
  | ret q1 =>
    obtain ⟨b, l1⟩ := q1
    rw [h1] at h; simp only [Panic.bind_ret] at h
    cases h2 : types.get_string l1 with
    | abort => rw [h2] at h; exact absurd h (by simp)
    | ret q2 =>
      obtain ⟨s, l2⟩ := q2
      rw [h2] at h; simp only [Panic.bind_ret] at h
      cases h3 : types.get_long l2 with
      | abort => rw [h3] at h; exact absurd h (by simp)
      | ret q3 =>
        obtain ⟨v, l3⟩ := q3
        rw [h3] at h; simp only [Panic.bind_ret] at h
        cases h4 : types.get_float l3 with
        | abort => rw [h4] at h; exact absurd h (by simp)
        | ret q4 =>
          obtain ⟨d, l4⟩ := q4
          rw [h4] at h
          simp only [Panic.bind_ret, Panic.ret.injEq, Prod.mk.injEq] at h
          have e1 := types.get_byte_length_lt h1
          have e2 := types.get_string_length_lt h2
          have e3 := types.get_long_length_lt h3
          have e4 := types.get_float_length_lt h4
          rw [← h.2]
          omega

/-- Models `Player::get_players` (src/src/lib.rs:155-173): repeatedly decodes
one player while strictly more than `size_of(Byte) + size_of(Long) +
size_of(Float) = 9` bytes remain. -/
def Player.get_players (l : List Nat) : Panic (List Player) :=
  if h : 9 < l.length then
    match hp : Player.from_iter_bytes l with
    | .abort => .abort
    | .ret (p, l') =>
      match Player.get_players l' with
      | .abort => .abort
      | .ret ps => .ret (p :: ps)
  else .ret []
termination_by l.length
decreasing_by exact Player.from_iter_bytes_length_lt hp

/-- Models `models::info::ServerType` (src/src/lib.rs:488-493). -/
inductive ServerType where
  | Dedicated
  | NonDedicated
  | SourceTvRelay
deriving DecidableEq, Repr

/-- Models `ServerType::from_byte` (src/src/lib.rs:495-506): byte 100 is
`'d'`, 108 is `'l'`, 112 is `'p'`; any other byte panics (aborts). -/
def ServerType.from_byte (byte : Nat) : Panic ServerType :=
  if byte = 100 then .ret .Dedicated
  else if byte = 108 then .ret .NonDedicated
  else if byte = 112 then .ret .SourceTvRelay
  else .abort

/-- Models `models::info::Platform` (src/src/lib.rs:508-513). -/
inductive Platform where
  | Linux
  | Windows
  | Mac
deriving DecidableEq, Repr

/-- Models `Platform::from_byte` (src/src/lib.rs:515-527): byte 108 is `'l'`,
119 is `'w'`, 109 is `'m'`, 111 is `'o'`; any other byte panics (aborts). -/
def Platform.from_byte (byte : Nat) : Panic Platform :=
  if byte = 108 then .ret .Linux
  else if byte = 119 then .ret .Windows
  else if byte = 109 then .ret .Mac
  else if byte = 111 then .ret .Mac
  else .abort

/-- Models `models::info::Visibility` (src/src/lib.rs:529-533). -/
inductive Visibility where
  | Public
  | Private
deriving DecidableEq, Repr

/-- Models `Visibility::from_byte` (src/src/lib.rs:535-545). -/
def Visibility.from_byte (byte : Nat) : Panic Visibility :=
  if byte = 0 then .ret .Public
  else if byte = 1 then .ret .Private
  else .abort

/-- Models `models::info::Vac` (src/src/lib.rs:547-552). -/
inductive Vac where
  | Unsecured
  | Secured
deriving DecidableEq, Repr

/-- Models `Vac::from_byte` (src/src/lib.rs:554-564). -/
def Vac.from_byte (byte : Nat) : Panic Vac :=
  if byte = 0 then .ret .Unsecured
  else if byte = 1 then .ret .Secured
  else .abort

/-- Models `models::info::Info` (src/src/lib.rs:224-283).  Strings are byte
lists, `Short` is `Int` (i16 value), `LongLong` is `Nat` (u64 value). -/
structure Info where
  header : Nat
  protocol : Nat
  name : List Nat
  map : List Nat
  folder : List Nat
  game : List Nat
  id : Int
  players : Nat
  max_players : Nat
  bots : Nat
  server_type : ServerType
  environment : Platform
  visibility : Visibility
  vac : Vac
  game_version : List Nat
  extra_data_flag : Option Nat
  port : Option Int
  steam_id : Option Nat
  spectator_port : Option Int
  spectator_name : Option (List Nat)
  keywords : Option (List Nat)
  game_id : Option Nat
  trailing_bytes : Option (List Nat)
deriving DecidableEq, Repr

/-- The bitmask test `extra_data_flag.is_some() && (extra_data_flag.expect(..)
& bit) != 0` used for each optional field of `Info::from_bytes`
(src/src/lib.rs:319,326,334,343,350). -/
def flagBit (flag : Option Nat) (bit : Nat) : Bool :=
  match flag with
  | some f => f &&& bit != 0
  | none => false

/-- The six optional extension fields of `Info`, produced by the bitmask-gated
block of `Info::from_bytes` (src/src/lib.rs:318-354). -/
structure ExtraData where
  port : Option Int
  steam_id : Option Nat
  spectator_port : Option Int
  spectator_name : Option (List Nat)
  keywords : Option (List Nat)
  game_id : Option Nat
deriving DecidableEq, Repr

/-- Models src/src/lib.rs:318-323: the port is decoded iff bit `0x80` of the
extra-data flag is set. -/
def parse_port (flag : Option Nat) (l : List Nat) : Panic (Option Int × List Nat) :=
  if flagBit flag 128 then
    Panic.bind (types.get_short l) (fun p => .ret (some p.1, p.2))
  else .ret (none, l)

/-- Models src/src/lib.rs:325-330: the SteamID is decoded iff bit `0x10` is
set. -/
def parse_steam_id (flag : Option Nat) (l : List Nat) : Panic (Option Nat × List Nat) :=
  if flagBit flag 16 then
    Panic.bind (types.get_longlong l) (fun p => .ret (some p.1, p.2))
  else .ret (none, l)

/-- Models src/src/lib.rs:332-340: the SourceTV port and name are decoded iff
bit `0x40` is set. -/
def parse_spectator (flag : Option Nat) (l : List Nat) :
    Panic ((Option Int × Option (List Nat)) × List Nat) :=
  if flagBit flag 64 then
    Panic.bind (types.get_short l) (fun p =>
      Panic.bind (types.get_string p.2) (fun q =>
        .ret ((some p.1, some q.1), q.2)))
  else .ret ((none, none), l)

/-- Models src/src/lib.rs:342-347: the keywords string is decoded iff bit
`0x20` is set. -/
def parse_keywords (flag : Option Nat) (l : List Nat) :
    Panic (Option (List Nat) × List Nat) :=
  if flagBit flag 32 then
    Panic.bind (types.get_string l) (fun p => .ret (some p.1, p.2))
  else .ret (none, l)

/-- Models src/src/lib.rs:349-354: the GameID is decoded iff bit `0x01` is
set. -/
def parse_game_id (flag : Option Nat) (l : List Nat) : Panic (Option Nat × List Nat) :=
  if flagBit flag 1 then
    Panic.bind (types.get_longlong l) (fun p => .ret (some p.1, p.2))
  else .ret (none, l)

/-- The bitmask-gated optional block of `Info::from_bytes`
(src/src/lib.rs:318-354), in the source's fixed check order: `0x80` port,
`0x10` SteamID, `0x40` SourceTV port and name, `0x20` keywords, `0x01`
GameID. -/
def parse_extra_data (flag : Option Nat) (l : List Nat) :
    Panic (ExtraData × List Nat) := do
  let (port, l) ← parse_port flag l
  let (steam_id, l) ← parse_steam_id flag l
  let (spec, l) ← parse_spectator flag l
  let (keywords, l) ← parse_keywords flag l
  let (game_id, l) ← parse_game_id flag l
  pure (⟨port, steam_id, spec.1, spec.2, keywords, game_id⟩, l)

/-- Models the trailing-bytes handling of `Info::from_bytes`
(src/src/lib.rs:356-370): when bytes remain they are compressed with
`compress_trailing_null_bytes`, and a result that is exactly `[0]` is
dropped (`None`). -/
def trailing_residue (l : List Nat) : Option (List Nat) :=
  if 0 < l.length then
    let min_bytes := utils.compress_trailing_null_bytes l
    if min_bytes.length = 1 ∧ min_bytes.getLast? = some 0 then none
    else some min_bytes
  else none

/-- Models `Info::from_bytes` (src/src/lib.rs:286-397): the fixed fields in
order, then the optional extra-data flag byte (`it.next()`, absent when
the cursor is exhausted), then the bitmask-gated optional block, then the
trailing residue. -/
def Info.from_bytes (bytes : List Nat) : Panic Info := do
  let (header, l) ← types.get_byte bytes
  let (protocol, l) ← types.get_byte l
  let (name, l) ← types.get_string l
  let (map, l) ← types.get_string l
  let (folder, l) ← types.get_string l
  let (game, l) ← types.get_string l
  let (id, l) ← types.get_short l
  let (players, l) ← types.get_byte l
  let (max_players, l) ← types.get_byte l
  let (bots, l) ← types.get_byte l
  let (st, l) ← types.get_byte l
  let server_type ← ServerType.from_byte st
  let (env, l) ← types.get_byte l
  let environment ← Platform.from_byte env
  let (vis, l) ← types.get_byte l
  let visibility ← Visibility.from_byte vis
  let (vc, l) ← types.get_byte l
  let vac ← Vac.from_byte vc
  let (game_version, l) ← types.get_string l
  let (extra_data_flag, l) : Option Nat × List Nat :=
    match l with
    | [] => (none, [])
    | u :: l' => (some u, l')
  let (ed, l) ← parse_extra_data extra_data_flag l
  let trailing_bytes := trailing_residue l
  pure ⟨header, protocol, name, map, folder, game, id, players, max_players,
    bots, server_type, environment, visibility, vac, game_version,
    extra_data_flag, ed.port, ed.steam_id, ed.spectator_port,
    ed.spectator_name, ed.keywords, ed.game_id, trailing_bytes⟩

end models

namespace server

/-- The rules map `type Rules = HashMap<String, String>` (src/src/lib.rs:603),
modelled as an association list built with `hm_insert` (keys unique, last
write wins). -/
abbrev Rules : Type := List (List Nat × List Nat)

/-- Models a `recv` into the zero-initialised `[0; PACKET_SIZE]` buffer
(src/src/lib.rs:683-684 and the analogous sites): the datagram `d` is the
sequence of bytes the socket actually wrote (so `bytes_returned =
d.length`) and the rest of the buffer keeps its zero fill. -/
def pad (d : List Nat) : List Nat := d ++ List.replicate (PACKET_SIZE - d.length) 0

/-- Trimming of the receive buffer used by the challenge extraction
(src/src/lib.rs:690-698, 764-772, 850-858): reverse, skip leading zeros of
the reversal (= trailing zeros of the buffer), reverse back. -/
def trim_trailing_zeros (l : List Nat) : List Nat :=
  (l.reverse.dropWhile (fun b => b == 0)).reverse

/-- Models the challenge extraction block (src/src/lib.rs:690-699, 764-773,
850-859): the trimmed buffer is sliced with `[5..]`, which panics (aborts)
when the trimmed buffer is shorter than 5 bytes. -/
def challenge_bytes (buffer : List Nat) : Panic (List Nat) :=
  let t := trim_trailing_zeros buffer
  if 5 ≤ t.length then .ret (t.drop 5) else .abort

/-- Models a Rust slice expression `&buffer[lo..hi]` on a vector or array:
out-of-bounds bounds (`hi > len` or `lo > hi`) panic (abort). -/
def sliceP (l : List Nat) (lo hi : Nat) : Panic (List Nat) :=
  if lo ≤ hi ∧ hi ≤ l.length then .ret ((l.drop lo).take (hi - lo)) else .abort

/-- Models the multi-packet receive loop shared verbatim by `Server::info`
(src/src/lib.rs:722-730), `Server::players` (802-810) and `Server::rules`
(892-900): while the declared total exceeds `packet_map.len() as u8`,
receive another datagram, parse its multi-packet header and insert its
payload slice `buffer[10..bytes_returned + 1]` into the map, overwriting
any previous fragment with the same index.  Returns the final map together
with the buffer and `bytes_returned` of the last receive (the Rust loop
mutates those variables in place).  Running out of datagrams models a
receive failure (timeout), which `?`-propagates as an `io::Error`. -/
def recv_multi_loop (total : Nat) :
    List (List Nat) → List (Nat × List Nat) → List Nat → Nat →
    RustResult (List (Nat × List Nat) × List Nat × Nat)
  | [], pm, buf, br =>
    if total ≤ pm.length % 256 then .ok (pm, buf, br) else .ioErr
  | d :: rest, pm, buf, br =>
    if total ≤ pm.length % 256 then .ok (pm, buf, br)
    else
      match utils.get_multipacket_data (pad d) with
      | .abort => .abort
      | .ret (_answer_id, _total, packet_id) =>
        match sliceP (pad d) 10 (d.length + 1) with
        | .abort => .abort
        | .ret current_payload =>
          recv_multi_loop total rest (hm_insert packet_id current_payload pm)
            (pad d) d.length

/-- The key ordering used to model `v.sort_by_key(|i| i.0)`
(src/src/lib.rs:734, 814, 904). -/
def key_le (a b : Nat × List Nat) : Prop := a.1 ≤ b.1

instance : DecidableRel key_le := fun a b => Nat.decLe a.1 b.1

/-- Strict version of `key_le`; with distinct fragment indices the sorted
fragment list is strictly ascending in this order. -/
def key_lt (a b : Nat × List Nat) : Prop := a.1 < b.1

instance : DecidableRel key_lt := fun a b => Nat.decLt a.1 b.1

instance : IsTotal (Nat × List Nat) key_le := ⟨fun a b => Nat.le_total a.1 b.1⟩

instance : IsTrans (Nat × List Nat) key_le := ⟨fun _ _ _ h1 h2 => Nat.le_trans h1 h2⟩

instance : IsAntisymm (Nat × List Nat) key_lt :=
  ⟨fun _ _ h1 h2 => absurd (Nat.lt_trans h1 h2) (Nat.lt_irrefl _)⟩

/-- Models the whole `MULTI_PACKET_RESPONSE_HEADER` branch shared verbatim by
`Server::info` (src/src/lib.rs:713-739), `Server::players` (793-819) and
`Server::rules` (883-909): parse the first fragment already in hand, run
the receive loop, then sort the map entries by fragment index and
concatenate their payloads.  Also returns the buffer and `bytes_returned`
of the last receive. -/
def get_multi_packet_payload (buffer : List Nat) (br : Nat)
    (rest : List (List Nat)) : RustResult (List Nat × List Nat × Nat) :=
  match utils.get_multipacket_data buffer with
  | .abort => .abort
  | .ret (_answer_id, total, packet_id) =>
    match sliceP buffer 10 (br + 1) with
    | .abort => .abort
    | .ret current_payload =>
      match recv_multi_loop total rest [(packet_id, current_payload)] buffer br with
      | .ioErr => .ioErr
      | .abort => .abort
      | .ok (pm, lastBuf, lastBr) =>
        let v := List.insertionSort key_le pm
        .ok ((v.map Prod.snd).flatten, lastBuf, lastBr)

/-- Models the body of `Server::info` after the handshake
(src/src/lib.rs:708-745): classify the 4-byte header, extract the payload
(`buffer[4..bytes_returned + 1]` for a simple response, the reassembled
multi-packet payload for a split one), panic on an unknown header, then
decode with `Info::from_bytes`. -/
def info_body (buffer : List Nat) (br : Nat) (rest : List (List Nat)) :
    RustResult models.Info :=
  if buffer.take 4 = SIMPLE_RESPONSE_HEADER then
    match sliceP buffer 4 (br + 1) with
    | .abort => .abort
    | .ret payload => liftPanic (models.Info.from_bytes payload)
  else if buffer.take 4 = MULTI_PACKET_RESPONSE_HEADER then
    match get_multi_packet_payload buffer br rest with
    | .ioErr => .ioErr
    | .abort => .abort
    | .ok (payload, _, _) => liftPanic (models.Info.from_bytes payload)
  else .abort

/-- Models `Server::info` (src/src/lib.rs:675-747) as a function of the
stream of datagrams the socket will deliver: receive the first reply; if
it is exactly 9 bytes, treat it as a challenge packet, extract the token
and receive again; then classify and decode.  An exhausted stream models a
receive failure (`io::Error`). -/
def Server.info (datagrams : List (List Nat)) : RustResult models.Info :=
  match datagrams with
  | [] => .ioErr
  | d1 :: rest =>
    if d1.length = 9 then
      match challenge_bytes (pad d1) with
      | .abort => .abort
      | .ret _challenge =>
        match rest with
        | [] => .ioErr
        | d2 :: rest2 => info_body (pad d2) d2.length rest2
    else info_body (pad d1) d1.length rest

/-- Models the tail of `Server::players` (src/src/lib.rs:824-829) applied
after the payload was computed: `&payload[0]` panics on an empty payload,
then the players are decoded from `buffer[2..bytes_returned + 1]` — the
raw final receive buffer, not the computed payload. -/
def players_tail (payload buffer : List Nat) (br : Nat) :
    RustResult (List models.Player) :=
  match payload with
  | [] => .abort
  | _ :: _ =>
    match sliceP buffer 2 (br + 1) with
    | .abort => .abort
    | .ret records => liftPanic (models.Player.get_players records)

/-- Models `Server::players` (src/src/lib.rs:751-831): always two-step —
receive the challenge reply, extract the token, receive the data reply,
classify it (`payload = buffer[4..]` for a simple response, reassembled
payload for a split one, panic on an unknown header), then run the final
decode of src/src/lib.rs:824-829 on the last receive buffer. -/
def Server.players (datagrams : List (List Nat)) : RustResult (List models.Player) :=
  match datagrams with
  | [] => .ioErr
  | d1 :: rest =>
    match challenge_bytes (pad d1) with
    | .abort => .abort
    | .ret _challenge =>
      match rest with
      | [] => .ioErr
      | d2 :: rest2 =>
        if (pad d2).take 4 = SIMPLE_RESPONSE_HEADER then
          players_tail ((pad d2).drop 4) (pad d2) d2.length
        else if (pad d2).take 4 = MULTI_PACKET_RESPONSE_HEADER then
          match get_multi_packet_payload (pad d2) d2.length rest2 with
          | .ioErr => .ioErr
          | .abort => .abort
          | .ok (payload, lastBuf, lastBr) => players_tail payload lastBuf lastBr
        else .abort

/-- Models `Server::get_rules` (src/src/lib.rs:919-933) with the accumulated
map: while bytes remain, decode a name string and a value string and
insert the pair (overwriting an existing name). -/
def Server.get_rules_aux (l : List Nat) (rules : Rules) : Panic Rules :=
  if h : 0 < l.length then
    match hn : types.get_string l with
    | .abort => .abort
    | .ret (name, l1) =>
      match hv : types.get_string l1 with
      | .abort => .abort
      | .ret (value, l2) =>
        Server.get_rules_aux l2 (hm_insert name value rules)
  else .ret rules
termination_by l.length
decreasing_by
  exact Nat.lt_trans (types.get_string_length_lt hv) (types.get_string_length_lt hn)

/-- Models `Server::get_rules` (src/src/lib.rs:919-933). -/
def Server.get_rules (bytes : List Nat) : Panic Rules :=
  Server.get_rules_aux bytes []

/-- Models `Server::rules` (src/src/lib.rs:835-917): always two-step —
receive the challenge reply, extract the token, receive the data reply,
classify it; a simple response takes `payload = buffer[7..]` compressed
with `compress_trailing_null_bytes`, a split response takes the
reassembled payload; an unknown header panics; finally `Server::get_rules`
decodes the payload. -/
def Server.rules (datagrams : List (List Nat)) : RustResult Rules :=
  match datagrams with
  | [] => .ioErr
  | d1 :: rest =>
    match challenge_bytes (pad d1) with
    | .abort => .abort
    | .ret _challenge =>
      match rest with
      | [] => .ioErr
      | d2 :: rest2 =>
        if (pad d2).take 4 = SIMPLE_RESPONSE_HEADER then
          liftPanic (Server.get_rules
            (utils.compress_trailing_null_bytes ((pad d2).drop 7)))
        else if (pad d2).take 4 = MULTI_PACKET_RESPONSE_HEADER then
          match get_multi_packet_payload (pad d2) d2.length rest2 with
          | .ioErr => .ioErr
          | .abort => .abort
          | .ok (payload, _, _) => liftPanic (Server.get_rules payload)
        else .abort

end server

namespace server

theorem pad_length {d : List Nat} (h : d.length ≤ PACKET_SIZE) :
    (pad d).length = PACKET_SIZE := by
  simp only [pad, List.length_append, List.length_replicate]
  omega

theorem pad_take {d : List Nat} {k : Nat} (h : k ≤ d.length) :
    (pad d).take k = d.take k :=
  List.take_append_of_le_length h

theorem pad_getD {d : List Nat} {k : Nat} (h : k < d.length) :
    (pad d).getD k 0 = d.getD k 0 :=
  List.getD_append _ _ _ _ h

theorem dropWhile_zero_replicate (n : Nat) (l : List Nat) :
    (List.replicate n 0 ++ l).dropWhile (fun b => b == 0) =
      l.dropWhile (fun b => b == 0) := by
  induction n with
  | zero => simp
  | succ n ih => simp [List.replicate_succ, List.dropWhile_cons, ih]

theorem trim_append_replicate (l : List Nat) (n : Nat) :
    trim_trailing_zeros (l ++ List.replicate n 0) = trim_trailing_zeros l := by
  unfold trim_trailing_zeros
  rw [List.reverse_append, List.reverse_replicate, dropWhile_zero_replicate]

theorem trim_pad (d : List Nat) :
    trim_trailing_zeros (pad d) = trim_trailing_zeros d :=
  trim_append_replicate d _

/-- A receive that returned `d.length < PACKET_SIZE` bytes: the slice
`&buffer[lo..bytes_returned + 1]` is in bounds and picks up the received
bytes from `lo` on plus exactly one byte of the zero fill. -/
theorem pad_slice {d : List Nat} {lo : Nat} (h1 : lo ≤ d.length)
    (h2 : d.length < PACKET_SIZE) :
    sliceP (pad d) lo (d.length + 1) = .ret (d.drop lo ++ [0]) := by
  have hlen : (pad d).length = PACKET_SIZE := pad_length (Nat.le_of_lt h2)
  unfold sliceP
  rw [if_pos ⟨by omega, by omega⟩]
  rw [pad, List.drop_append_of_le_length h1, List.take_append_eq_append_take]
  have hdl : (d.drop lo).length = d.length - lo := List.length_drop lo d
  rw [List.take_of_length_le (by omega)]
  have : d.length + 1 - lo - (d.drop lo).length = 1 := by omega
  rw [this, List.take_replicate]
  have : min 1 (PACKET_SIZE - d.length) = 1 := by omega
  rw [this, List.replicate_one]

/-- A receive that filled the whole buffer: the slice upper bound
`bytes_returned + 1 = PACKET_SIZE + 1` is out of bounds, so the slice
panics (aborts). -/
theorem pad_slice_full {d : List Nat} {lo : Nat} (h : d.length = PACKET_SIZE) :
    sliceP (pad d) lo (d.length + 1) = .abort := by
  have hlen : (pad d).length = PACKET_SIZE := pad_length (Nat.le_of_eq h)
  unfold sliceP
  rw [if_neg]
  intro hc
  omega

end server

open types models server utils

/-- C1.  The spec requires the primitive decoders to fail with a recoverable
`TruncatedInput` error when the cursor is exhausted; the source instead
panics: every `expect(..)` in `types::get_byte` / `get_short` / `get_long` /
`get_float` / `get_longlong` / `get_string` (src/src/lib.rs:65-128) aborts
the process on a short input, and the functions' return types have no error
channel at all.  This theorem evaluates each decoder at a truncated input
and shows the outcome is a process abort, not a returned value. -/
theorem primitive_decoders_abort_on_truncated_input :
    get_byte [] = .abort ∧
    get_short [1] = .abort ∧
    get_long [1, 2, 3] = .abort ∧
    get_float [1, 2, 3] = .abort ∧
    get_longlong [1, 2, 3, 4, 5, 6, 7] = .abort ∧
    get_string [65, 66] = .abort := by
  refine ⟨rfl, rfl, rfl, rfl, rfl, ?_⟩
  decide

/-- C7.  The spec requires a Rules payload ending in a trailing single
incomplete pair to fail with a recoverable `TruncatedInput` error; the
source's `Server::get_rules` (src/src/lib.rs:919-933) instead panics: with
payload `"name\0"` the loop enters (bytes remain), consumes the name, and
the paired `get_string` for the value exhausts the iterator, aborting the
process.  A payload of complete pairs decodes normally. -/
theorem rules_incomplete_pair_aborts :
    Server.get_rules [110, 97, 109, 101, 0] = .abort ∧
    Server.get_rules [110, 0, 118, 0] = .ret [([110], [118])] := by
  constructor
  · simp [Server.get_rules, Server.get_rules_aux, types.get_string]
  · simp [Server.get_rules, Server.get_rules_aux, types.get_string, hm_insert]

/-- C8.  The spec requires enum-coded bytes outside their documented sets to
fail with a recoverable `UnrecognizedEnumByte` error; the source's
`from_byte` conversions (src/src/lib.rs:496-505, 516-526, 536-544, 555-563)
instead `panic!`, aborting the process.  This theorem evaluates each
conversion at a byte outside its documented set (120 = `'x'` for
server-kind and platform, 2 for visibility and VAC) and shows a process
abort; no typed error value is ever produced since the return types have no
error channel. -/
theorem enum_bytes_abort_on_unrecognized :
    ServerType.from_byte 120 = .abort ∧
    Platform.from_byte 120 = .abort ∧
    Visibility.from_byte 2 = .abort ∧
    Vac.from_byte 2 = .abort := by
  decide

/-- C5.  The spec requires a datagram whose first four bytes are neither
`FF FF FF FF` nor `FF FF FF FE` to fail with a recoverable
`UnrecognizedHeader` error; the source's `info`/`players`/`rules`
(src/src/lib.rs:740-742, 820-822, 910-912) instead hit
`panic!("An unknown packet header was received.")`, aborting the process
(so in particular no partial result is returned, but neither is any error
value).  Evaluated here for each operation on a reply whose header is
`00 00 00 00` resp. `09 09 09 09`. -/
theorem unknown_header_aborts_process :
    Server.info [[0, 0, 0, 0, 1, 2, 3]] = .abort ∧
    Server.players [[255, 255, 255, 255, 65, 1, 2, 3, 4], [9, 9, 9, 9, 1]] = .abort ∧
    Server.rules [[255, 255, 255, 255, 65, 1, 2, 3, 4], [9, 9, 9, 9, 1]] = .abort := by
  refine ⟨by decide, by decide, by decide⟩

/-- C2.  The claim states all three operations decode the payload obtained
from header classification (reassembled when split).  `info` and `rules`
do (`Info::from_bytes(&payload)`, `Self::get_rules(&payload)`), but
`Server::players` (src/src/lib.rs:824-829) computes `payload` and then
ignores it, decoding `Player::get_players(&buffer[2..bytes_returned + 1])`
from the raw final receive buffer instead — the slice starts inside the
4-byte response header.  Concretely: after the challenge exchange the
simple data reply `FF FF FF FF 44 01` + one player record (index 0, name
"A", score 1) makes `players` return one garbled record decoded from
header bytes, while `Player::get_players` applied to the record part of
the classified payload (`buffer[4..]`, then header byte and count byte)
yields the real record; the two differ. -/
theorem players_decodes_from_raw_buffer_not_payload :
    Server.players [[255, 255, 255, 255, 65, 1, 2, 3, 4],
      [255, 255, 255, 255, 68, 1, 0, 65, 0, 1, 0, 0, 0, 0, 0, 0, 0]] =
      .ok [⟨255, [255, 68, 1], 65601, [0, 0, 0, 0]⟩] ∧
    Player.get_players
      ((([255, 255, 255, 255, 68, 1, 0, 65, 0, 1, 0, 0, 0, 0, 0, 0, 0] :
        List Nat).drop 4).drop 2) = .ret [⟨0, [65], 1, [0, 0, 0, 0]⟩] ∧
    ([⟨255, [255, 68, 1], 65601, [0, 0, 0, 0]⟩] : List Player) ≠
      [⟨0, [65], 1, [0, 0, 0, 0]⟩] := by
  refine ⟨?_, ?_, by decide⟩
  · have h : Player.get_players [255, 255, 68, 1, 0, 65, 0, 1, 0, 0, 0, 0, 0, 0, 0, 0]
        = .ret [⟨255, [255, 68, 1], 65601, [0, 0, 0, 0]⟩] := by
      simp [Player.get_players, Player.from_iter_bytes, types.get_byte,
        types.get_string, types.get_long, types.get_float, types.long_of_le_bytes]
    calc Server.players [[255, 255, 255, 255, 65, 1, 2, 3, 4],
          [255, 255, 255, 255, 68, 1, 0, 65, 0, 1, 0, 0, 0, 0, 0, 0, 0]]
        = liftPanic (Player.get_players
            [255, 255, 68, 1, 0, 65, 0, 1, 0, 0, 0, 0, 0, 0, 0, 0]) := rfl
      _ = .ok [⟨255, [255, 68, 1], 65601, [0, 0, 0, 0]⟩] := by rw [h]; rfl
  · simp [Player.get_players, Player.from_iter_bytes, types.get_byte,
      types.get_string, types.get_long, types.get_float, types.long_of_le_bytes]

/-- C10.  Payload extraction slices the 1400-byte zero-filled receive buffer
as `buffer[lo..bytes_returned + 1]` (lo = 4 in `info`'s simple path, 10 in
every multi-packet fragment path, 2 in `players`' record slice): a receive
of fewer than `PACKET_SIZE` bytes yields the received bytes from `lo` on
plus exactly one byte of the zero fill, and a receive that fills the
buffer makes the upper bound `PACKET_SIZE + 1` out of bounds, aborting the
operation — shown on `info` receiving a full 1400-byte simple response. -/
theorem slice_includes_one_padding_byte_or_aborts :
    (∀ (d : List Nat) (lo : Nat), lo ≤ d.length → d.length < PACKET_SIZE →
      sliceP (pad d) lo (d.length + 1) = .ret (d.drop lo ++ [0])) ∧
    (∀ d : List Nat, d.length = PACKET_SIZE →
      sliceP (pad d) 4 (d.length + 1) = .abort) ∧
    Server.info [List.replicate 1400 255] = .abort := by
  refine ⟨fun d lo h1 h2 => pad_slice h1 h2,
    fun d h => pad_slice_full h, by decide⟩

/-- Witness for C10 at concrete receives: a 6-byte receive sliced from 4
yields the two received bytes plus one padding zero; a 1400-byte receive
aborts. -/
theorem slice_includes_one_padding_byte_or_aborts_witness :
    sliceP (pad [1, 2, 3, 4, 5, 6]) 4 7 = .ret [5, 6, 0] ∧
    sliceP (pad (List.replicate 1400 7)) 4 1401 = .abort := by
  refine ⟨?_, ?_⟩
  · exact slice_includes_one_padding_byte_or_aborts.1 [1, 2, 3, 4, 5, 6] 4
      (by decide) (by decide)
  · exact slice_includes_one_padding_byte_or_aborts.2.1 (List.replicate 1400 7)
      (by simp [PACKET_SIZE])

/-- C6 counterexample.  The claim says the extracted challenge token equals
the last 4 bytes remaining after trailing zero padding is trimmed.  Take a
9-byte challenge reply `FF FF FF FF 41` + token `AB CD EF 00` in the
zero-filled buffer: trimming also eats the token's own trailing zero, the
code's `[5..]` slice then extracts only 3 bytes `AB CD EF`, while the last
4 bytes of the trimmed buffer are `41 AB CD EF` — the two differ. -/
theorem challenge_token_not_last_four_counterexample :
    challenge_bytes (pad [255, 255, 255, 255, 65, 171, 205, 239, 0]) =
      .ret [171, 205, 239] ∧
    (trim_trailing_zeros (pad [255, 255, 255, 255, 65, 171, 205, 239, 0])).drop
      ((trim_trailing_zeros (pad [255, 255, 255, 255, 65, 171, 205, 239, 0])).length - 4)
      = [65, 171, 205, 239] ∧
    ([171, 205, 239] : List Nat) ≠ [65, 171, 205, 239] := by
  refine ⟨by decide, by decide, by decide⟩

/-- C6 amended.  The extraction (src/src/lib.rs:690-699, 764-773, 850-859)
takes everything after index 5 of the trimmed buffer; this equals the last
4 bytes of the trimmed buffer exactly when the trimmed buffer is 9 bytes
long (the normal challenge reply whose token has no trailing zero byte);
a trimmed reply of any other length yields a differently-sized token. -/
theorem challenge_token_last_four_iff_trimmed_length_nine
    (buffer : List Nat) (h : (trim_trailing_zeros buffer).length = 9) :
    challenge_bytes buffer =
      .ret ((trim_trailing_zeros buffer).drop
        ((trim_trailing_zeros buffer).length - 4)) := by
  simp only [challenge_bytes]
  rw [h]
  norm_num

/-- Witness for the amended C6 at a 9-byte challenge reply with no trailing
zero in the token: the token is the last 4 bytes of the trimmed reply. -/
theorem challenge_token_last_four_iff_trimmed_length_nine_witness :
    (trim_trailing_zeros [255, 255, 255, 255, 65, 1, 2, 3, 4]).length = 9 ∧
    challenge_bytes [255, 255, 255, 255, 65, 1, 2, 3, 4] = .ret [1, 2, 3, 4] := by
  refine ⟨by decide, ?_⟩
  exact (challenge_token_last_four_iff_trimmed_length_nine
    [255, 255, 255, 255, 65, 1, 2, 3, 4] (by decide)).trans (by decide)

namespace models

theorem parse_port_isSome {flag : Option Nat} {l : List Nat} {o : Option Int}
    {rest : List Nat} (h : parse_port flag l = .ret (o, rest)) :
    o.isSome = flagBit flag 128 := by
  unfold parse_port at h
  by_cases hb : flagBit flag 128
  · rw [if_pos hb] at h
    cases hs : types.get_short l with
    | abort => rw [hs] at h; exact absurd h (by simp)
    | ret p =>
      rw [hs] at h
      simp only [Panic.bind_ret, Panic.ret.injEq, Prod.mk.injEq] at h
      rw [← h.1, hb]; rfl
  · rw [if_neg hb] at h
    simp only [Panic.ret.injEq, Prod.mk.injEq] at h
    rw [← h.1, Bool.eq_false_iff.mpr hb]; rfl

theorem parse_steam_id_isSome {flag : Option Nat} {l : List Nat} {o : Option Nat}
    {rest : List Nat} (h : parse_steam_id flag l = .ret (o, rest)) :
    o.isSome = flagBit flag 16 := by
  unfold parse_steam_id at h
  by_cases hb : flagBit flag 16
  · rw [if_pos hb] at h
    cases hs : types.get_longlong l with
    | abort => rw [hs] at h; exact absurd h (by simp)
    | ret p =>
      rw [hs] at h
      simp only [Panic.bind_ret, Panic.ret.injEq, Prod.mk.injEq] at h
      rw [← h.1, hb]; rfl
  · rw [if_neg hb] at h
    simp only [Panic.ret.injEq, Prod.mk.injEq] at h
    rw [← h.1, Bool.eq_false_iff.mpr hb]; rfl

theorem parse_spectator_isSome {flag : Option Nat} {l : List Nat}
    {sp : Option Int × Option (List Nat)} {rest : List Nat}
    (h : parse_spectator flag l = .ret (sp, rest)) :
    sp.1.isSome = flagBit flag 64 ∧ sp.2.isSome = flagBit flag 64 := by
  unfold parse_spectator at h
  by_cases hb : flagBit flag 64
  · rw [if_pos hb] at h
    cases hs : types.get_short l with
    | abort => rw [hs] at h; exact absurd h (by simp)
    | ret p =>
      rw [hs] at h
      simp only [Panic.bind_ret] at h
      cases hq : types.get_string p.2 with
      | abort => rw [hq] at h; exact absurd h (by simp)
      | ret q =>
        rw [hq] at h
        simp only [Panic.bind_ret, Panic.ret.injEq, Prod.mk.injEq] at h
        rw [← h.1, hb]; exact ⟨rfl, rfl⟩
  · rw [if_neg hb] at h
    simp only [Panic.ret.injEq, Prod.mk.injEq] at h
    rw [← h.1, Bool.eq_false_iff.mpr hb]; exact ⟨rfl, rfl⟩

theorem parse_keywords_isSome {flag : Option Nat} {l : List Nat}
    {o : Option (List Nat)} {rest : List Nat}
    (h : parse_keywords flag l = .ret (o, rest)) :
    o.isSome = flagBit flag 32 := by
  unfold parse_keywords at h
  by_cases hb : flagBit flag 32
  · rw [if_pos hb] at h
    cases hs : types.get_string l with
    | abort => rw [hs] at h; exact absurd h (by simp)
    | ret p =>
      rw [hs] at h
      simp only [Panic.bind_ret, Panic.ret.injEq, Prod.mk.injEq] at h
      rw [← h.1, hb]; rfl
  · rw [if_neg hb] at h
    simp only [Panic.ret.injEq, Prod.mk.injEq] at h
    rw [← h.1, Bool.eq_false_iff.mpr hb]; rfl

theorem parse_game_id_isSome {flag : Option Nat} {l : List Nat} {o : Option Nat}
    {rest : List Nat} (h : parse_game_id flag l = .ret (o, rest)) :
    o.isSome = flagBit flag 1 := by
  unfold parse_game_id at h
  by_cases hb : flagBit flag 1
  · rw [if_pos hb] at h
    cases hs : types.get_longlong l with
    | abort => rw [hs] at h; exact absurd h (by simp)
    | ret p =>
      rw [hs] at h
      simp only [Panic.bind_ret, Panic.ret.injEq, Prod.mk.injEq] at h
      rw [← h.1, hb]; rfl
  · rw [if_neg hb] at h
    simp only [Panic.ret.injEq, Prod.mk.injEq] at h
    rw [← h.1, Bool.eq_false_iff.mpr hb]; rfl

theorem parse_extra_data_isSome {flag : Option Nat} {l : List Nat}
    {ed : ExtraData} {rest : List Nat}
    (h : parse_extra_data flag l = .ret (ed, rest)) :
    ed.port.isSome = flagBit flag 128 ∧
    ed.steam_id.isSome = flagBit flag 16 ∧
    ed.spectator_port.isSome = flagBit flag 64 ∧
    ed.spectator_name.isSome = flagBit flag 64 ∧
    ed.keywords.isSome = flagBit flag 32 ∧
    ed.game_id.isSome = flagBit flag 1 := by
  unfold parse_extra_data at h
  simp only [Panic.bind_eq, Panic.pure_eq] at h
  cases h1 : parse_port flag l with
  | abort => rw [h1] at h; exact absurd h (by simp)
  | ret p1 =>
    obtain ⟨o1, l1⟩ := p1
    rw [h1] at h
    simp only [Panic.bind_ret] at h
    cases h2 : parse_steam_id flag l1 with
    | abort => rw [h2] at h; exact absurd h (by simp)
    | ret p2 =>
      obtain ⟨o2, l2⟩ := p2
      rw [h2] at h
      simp only [Panic.bind_ret] at h
      cases h3 : parse_spectator flag l2 with
      | abort => rw [h3] at h; exact absurd h (by simp)
      | ret p3 =>
        obtain ⟨sp, l3⟩ := p3
        rw [h3] at h
        simp only [Panic.bind_ret] at h
        cases h4 : parse_keywords flag l3 with
        | abort => rw [h4] at h; exact absurd h (by simp)
        | ret p4 =>
          obtain ⟨o4, l4⟩ := p4
          rw [h4] at h
          simp only [Panic.bind_ret] at h
          cases h5 : parse_game_id flag l4 with
          | abort => rw [h5] at h; exact absurd h (by simp)
          | ret p5 =>
            obtain ⟨o5, l5⟩ := p5
            rw [h5] at h
            simp only [Panic.bind_ret, Panic.ret.injEq, Prod.mk.injEq] at h
            rw [← h.1]
            exact ⟨parse_port_isSome h1, parse_steam_id_isSome h2,
              (parse_spectator_isSome h3).1, (parse_spectator_isSome h3).2,
              parse_keywords_isSome h4, parse_game_id_isSome h5⟩

end models

/-- C4.  Confirmed: in `Info::from_bytes` each optional field is populated
iff its bit of the extra-data flag is set — `0x80` port, `0x10` SteamID,
`0x40` SourceTV port and name, `0x20` keywords, `0x01` GameID, checked in
that fixed order (src/src/lib.rs:311-354).  The first conjunct is the
general gating law for any successful decode; the second shows an unset
flag consumes nothing and never fails; the remaining conjuncts decode
hand-built payloads (16 fixed-field bytes, then the flag): flag `0x00`
yields no optional fields, flag `0x80` yields exactly a port (12345) and
nothing else, and flag `0xF1` decodes all five gated groups from the
subsequent bytes in the fixed check order. -/
theorem info_optional_fields_gated_by_bitmask :
    (∀ (flag : Option Nat) (l : List Nat) (ed : ExtraData) (rest : List Nat),
      parse_extra_data flag l = .ret (ed, rest) →
      ed.port.isSome = flagBit flag 128 ∧
      ed.steam_id.isSome = flagBit flag 16 ∧
      ed.spectator_port.isSome = flagBit flag 64 ∧
      ed.spectator_name.isSome = flagBit flag 64 ∧
      ed.keywords.isSome = flagBit flag 32 ∧
      ed.game_id.isSome = flagBit flag 1) ∧
    (∀ l : List Nat, parse_extra_data (some 0) l =
      .ret (⟨none, none, none, none, none, none⟩, l)) ∧
    Info.from_bytes
      [73, 2, 0, 0, 0, 0, 16, 0, 2, 8, 0, 100, 108, 0, 0, 0, 0] =
      .ret ⟨73, 2, [], [], [], [], 16, 2, 8, 0, .Dedicated, .Linux, .Public,
        .Unsecured, [], some 0, none, none, none, none, none, none, none⟩ ∧
    Info.from_bytes
      [73, 2, 0, 0, 0, 0, 16, 0, 2, 8, 0, 100, 108, 0, 0, 0, 128, 57, 48] =
      .ret ⟨73, 2, [], [], [], [], 16, 2, 8, 0, .Dedicated, .Linux, .Public,
        .Unsecured, [], some 128, some 12345, none, none, none, none, none,
        none⟩ ∧
    Info.from_bytes
      [73, 2, 0, 0, 0, 0, 16, 0, 2, 8, 0, 100, 108, 0, 0, 0, 241,
        1, 0, 2, 0, 0, 0, 0, 0, 0, 0, 3, 0, 83, 0, 75, 0,
        4, 0, 0, 0, 0, 0, 0, 0] =
      .ret ⟨73, 2, [], [], [], [], 16, 2, 8, 0, .Dedicated, .Linux, .Public,
        .Unsecured, [], some 241, some 1, some 2, some 3, some [83],
        some [75], some 4, none⟩ := by
  refine ⟨fun flag l ed rest h => parse_extra_data_isSome h,
    fun l => ?_, by decide, by decide, by decide⟩
  have h128 : flagBit (some 0) 128 = false := by decide
  have h16 : flagBit (some 0) 16 = false := by decide
  have h64 : flagBit (some 0) 64 = false := by decide
  have h32 : flagBit (some 0) 32 = false := by decide
  have h1 : flagBit (some 0) 1 = false := by decide
  simp [parse_extra_data, parse_port, parse_steam_id, parse_spectator,
    parse_keywords, parse_game_id, h128, h16, h64, h32, h1]

/-- Witness for C4: the gating law applied to the concrete decode of a
one-field extra block — flag `0x80` with bytes `05 00 07` consumes exactly
the two port bytes, and the resulting port presence equals the `0x80` bit
test; the unset-flag law applied at `[9, 9]`. -/
theorem info_optional_fields_gated_by_bitmask_witness :
    ((⟨some 5, none, none, none, none, none⟩ : ExtraData).port.isSome =
      flagBit (some 128) 128) ∧
    parse_extra_data (some 0) [9, 9] =
      .ret (⟨none, none, none, none, none, none⟩, [9, 9]) := by
  refine ⟨?_, info_optional_fields_gated_by_bitmask.2.1 [9, 9]⟩
  exact (info_optional_fields_gated_by_bitmask.1 (some 128) [5, 0, 7]
    ⟨some 5, none, none, none, none, none⟩ [7] (by decide)).1

namespace utils

theorem popZeros_fst_ne_zero {b : Nat} {r : List Nat}
    (h : ∃ x ∈ b :: r, x ≠ 0) : (popZeros b r).1 ≠ 0 := by
  induction r generalizing b with
  | nil =>
    obtain ⟨x, hx, hxne⟩ := h
    simp only [List.mem_singleton] at hx
    subst hx
    simpa [popZeros] using hxne
  | cons c r ih =>
    by_cases hb : b = 0
    · subst hb
      simp only [popZeros, if_pos rfl]
      apply ih
      obtain ⟨x, hx, hxne⟩ := h
      rcases List.mem_cons.mp hx with h0 | h1
      · exact absurd h0 hxne
      · exact ⟨x, h1, hxne⟩
    · simp [popZeros, hb]

theorem popZeros_all_zero {r : List Nat} (h : ∀ x ∈ r, x = 0) :
    popZeros 0 r = (0, []) := by
  induction r with
  | nil => rfl
  | cons c r ih =>
    have hc : c = 0 := h c (List.mem_cons_self c r)
    subst hc
    simp only [popZeros, if_pos rfl]
    exact ih fun x hx => h x (List.mem_cons_of_mem _ hx)

/-- On an all-zero vector of length at least 2,
`compress_trailing_null_bytes` produces exactly `[0, 0]`. -/
theorem compress_all_zero {rest : List Nat} (h2 : 2 ≤ rest.length)
    (h : ∀ b ∈ rest, b = 0) :
    compress_trailing_null_bytes rest = [0, 0] := by
  have hne : rest ≠ [] := by intro he; subst he; simp at h2
  have hlast : rest.getLast? = some 0 := by
    rw [List.getLast?_eq_getLast rest hne]
    exact congrArg some (h _ (List.getLast_mem hne))
  unfold compress_trailing_null_bytes
  rw [if_neg (by omega)]
  rw [if_neg (by simp [hlast])]
  cases hrev : rest.reverse with
  | nil => exact absurd (List.reverse_eq_nil_iff.mp hrev) hne
  | cons b r =>
    have hb : b = 0 := by
      have : b ∈ rest := by
        rw [← List.mem_reverse, hrev]; exact List.mem_cons_self b r
      exact h b this
    have hr : ∀ x ∈ r, x = 0 := by
      intro x hx
      have : x ∈ rest := by
        rw [← List.mem_reverse, hrev]; exact List.mem_cons_of_mem _ hx
      exact h x this
    subst hb
    show (popZeros 0 r).2.reverse ++ [(popZeros 0 r).1, 0] = [0, 0]
    rw [popZeros_all_zero hr]
    rfl

/-- On a vector that ends in a zero byte, has length at least 2 and contains
a non-zero byte, `compress_trailing_null_bytes` produces `l ++ [x, 0]`
with `x ≠ 0`. -/
theorem compress_last_zero_has_nonzero {rest : List Nat}
    (h2 : 2 ≤ rest.length) (hlast : rest.getLast? = some 0)
    (h : ∃ b ∈ rest, b ≠ 0) :
    ∃ (l : List Nat) (x : Nat), x ≠ 0 ∧
      compress_trailing_null_bytes rest = l ++ [x, 0] := by
  unfold compress_trailing_null_bytes
  rw [if_neg (by omega)]
  rw [if_neg (by simp [hlast])]
  cases hrev : rest.reverse with
  | nil =>
    have : rest = [] := List.reverse_eq_nil_iff.mp hrev
    subst this; simp at h2
  | cons b r =>
    have hbr : ∃ x ∈ b :: r, x ≠ 0 := by
      obtain ⟨x, hx, hxne⟩ := h
      exact ⟨x, by rw [← hrev]; exact List.mem_reverse.mpr hx, hxne⟩
    exact ⟨(popZeros b r).2.reverse, (popZeros b r).1,
      popZeros_fst_ne_zero hbr, rfl⟩

end utils

namespace models

/-- The residue `l` keeps (at least) two consecutive null bytes at its end. -/
def has_two_trailing_nulls (l : List Nat) : Prop :=
  l.getLast? = some 0 ∧ l.dropLast.getLast? = some 0

instance (l : List Nat) : Decidable (has_two_trailing_nulls l) := by
  unfold has_two_trailing_nulls; infer_instance

end models

/-- C9 counterexample.  The claim says every Info payload with leftover bytes
retains them as a residue whose consecutive trailing nulls are collapsed
to at most one null byte.  Decoding a payload whose leftover is the three
null bytes `00 00 00` (after a `0x00` extra-data flag) stores the residue
`[0, 0]` — two consecutive trailing nulls, not at most one — because
`compress_trailing_null_bytes` re-pushes the popped byte and a null even
when everything popped was null.  And a leftover of a single null byte is
not retained at all: the decoder drops it (`trailing_bytes = None`). -/
theorem trailing_residue_two_nulls_counterexample :
    Info.from_bytes
      [73, 2, 0, 0, 0, 0, 16, 0, 2, 8, 0, 100, 108, 0, 0, 0, 0, 0, 0, 0] =
      .ret ⟨73, 2, [], [], [], [], 16, 2, 8, 0, .Dedicated, .Linux, .Public,
        .Unsecured, [], some 0, none, none, none, none, none, none,
        some [0, 0]⟩ ∧
    has_two_trailing_nulls [0, 0] ∧
    Info.from_bytes
      [73, 2, 0, 0, 0, 0, 16, 0, 2, 8, 0, 100, 108, 0, 0, 0, 0, 0] =
      .ret ⟨73, 2, [], [], [], [], 16, 2, 8, 0, .Dedicated, .Linux, .Public,
        .Unsecured, [], some 0, none, none, none, none, none, none,
        none⟩ := by
  refine ⟨by decide, by decide, by decide⟩

/-- C9 amended.  Leftover bytes after an `Info` decode
(src/src/lib.rs:356-370) are kept as follows: a leftover containing at
least one non-zero byte is retained as
`compress_trailing_null_bytes(leftover)` and that residue never ends in
two consecutive nulls (trailing null runs collapse to exactly one); a
leftover consisting entirely of null bytes is dropped (`None`) when it is
a single byte and stored as exactly `[0, 0]` (two nulls) otherwise. -/
theorem trailing_residue_amended (rest : List Nat) (hne : rest ≠ []) :
    ((∃ b ∈ rest, b ≠ 0) →
      trailing_residue rest =
        some (utils.compress_trailing_null_bytes rest) ∧
      ¬ has_two_trailing_nulls (utils.compress_trailing_null_bytes rest)) ∧
    ((∀ b ∈ rest, b = 0) →
      trailing_residue rest = if rest.length = 1 then none else some [0, 0]) := by
  have hpos : 0 < rest.length := List.length_pos.mpr hne
  constructor
  · intro hex
    by_cases h1 : rest.length = 1
    · obtain ⟨a, ha⟩ := List.length_eq_one.mp h1
      subst ha
      obtain ⟨x, hx, hxne⟩ := hex
      simp only [List.mem_singleton] at hx
      subst hx
      have hc : utils.compress_trailing_null_bytes [x] = [x] := by
        unfold utils.compress_trailing_null_bytes
        rw [if_pos (by simp)]
      constructor
      · rw [trailing_residue, if_pos (by simp), hc]
        simp [hxne]
      · rw [hc]
        intro hcon
        obtain ⟨hl, _⟩ := hcon
        simp only [List.getLast?_singleton, Option.some.injEq] at hl
        exact hxne hl
    · have h2 : 2 ≤ rest.length := by omega
      by_cases hlast : rest.getLast? = some 0
      · obtain ⟨l, x, hxne, hc⟩ :=
          utils.compress_last_zero_has_nonzero h2 hlast hex
        have hshape : utils.compress_trailing_null_bytes rest =
            (l ++ [x]) ++ [0] := by rw [hc]; simp
        constructor
        · rw [trailing_residue, if_pos hpos, if_neg, hc]
          rw [hshape]
          intro hcon
          have := hcon.1
          simp [List.length_append] at this
        · rw [hshape]
          intro hcon
          obtain ⟨_, hd⟩ := hcon
          rw [List.dropLast_concat, List.getLast?_concat] at hd
          exact hxne (Option.some.injEq _ _ ▸ hd)
      · have hc : utils.compress_trailing_null_bytes rest = rest := by
          unfold utils.compress_trailing_null_bytes
          rw [if_neg (by omega), if_pos hlast]
        rw [hc]
        constructor
        · rw [trailing_residue, if_pos hpos, hc, if_neg]
          intro hcon
          exact hlast hcon.2
        · intro hcon
          exact hlast hcon.1
  · intro hall
    by_cases h1 : rest.length = 1
    · obtain ⟨a, ha⟩ := List.length_eq_one.mp h1
      subst ha
      have : a = 0 := hall a (List.mem_singleton_self a)
      subst this
      rw [if_pos h1]
      decide
    · have h2 : 2 ≤ rest.length := by omega
      have hc := utils.compress_all_zero h2 hall
      rw [if_neg h1, trailing_residue, if_pos hpos, hc, if_neg (by simp)]

/-- Witness for the amended C9: a leftover `07 00 00` is retained as
`[7, 0]` (one trailing null), and an all-null single-byte leftover `00`
is dropped. -/
theorem trailing_residue_amended_witness :
    trailing_residue [7, 0, 0] = some [7, 0] ∧
    ¬ has_two_trailing_nulls [7, 0] ∧
    trailing_residue [0] = none := by
  have h1 := (trailing_residue_amended [7, 0, 0] (by decide)).1
    ⟨7, by decide, by decide⟩
  have h2 := (trailing_residue_amended [0] (by decide)).2 (by decide)
  have hc : utils.compress_trailing_null_bytes [7, 0, 0] = [7, 0] := by decide
  rw [hc] at h1
  exact ⟨h1.1, h1.2, by simpa using h2⟩

namespace server

/-- Fragment index of a received datagram: the byte that
`utils::get_multipacket_data` parses at offset 9 of the receive buffer. -/
def frag_idx (d : List Nat) : Nat := d.getD 9 0

/-- Payload slice of a received fragment datagram,
`buffer[(4 + 4 + 1 + 1)..bytes_returned + 1]`: the received bytes after the
10-byte multi-packet header plus the single zero-fill byte picked up by the
`+ 1` upper bound. -/
def frag_payload (d : List Nat) : List Nat := d.drop 10 ++ [0]

/-- A fragment as the (index, payload slice) pair inserted into the packet
map. -/
def frag_pair (d : List Nat) : Nat × List Nat := (frag_idx d, frag_payload d)

theorem map_fst_frag_pair (l : List (List Nat)) :
    (l.map frag_pair).map Prod.fst = l.map frag_idx := by
  rw [List.map_map]; rfl

theorem get_multipacket_data_eval {l : List Nat} (h : 10 ≤ l.length) :
    utils.get_multipacket_data l =
      .ret (types.long_of_le_bytes (l.getD 4 0) (l.getD 5 0) (l.getD 6 0)
        (l.getD 7 0), l.getD 8 0, l.getD 9 0) := by
  rcases l with _ | ⟨b0, _ | ⟨b1, _ | ⟨b2, _ | ⟨b3, _ | ⟨b4, _ | ⟨b5, _ |
    ⟨b6, _ | ⟨b7, _ | ⟨b8, _ | ⟨b9, t⟩⟩⟩⟩⟩⟩⟩⟩⟩⟩ <;>
    first
      | rfl
      | (exfalso; simp only [List.length_cons, List.length_nil] at h; omega)

theorem hm_insert_fresh {κ ν : Type} [DecidableEq κ] {k : κ} {v : ν}
    {pm : List (κ × ν)} (h : k ∉ pm.map Prod.fst) :
    hm_insert k v pm = pm ++ [(k, v)] := by
  induction pm with
  | nil => rfl
  | cons p rest ih =>
    obtain ⟨k', v'⟩ := p
    simp only [List.map_cons, List.mem_cons] at h
    push_neg at h
    simp [hm_insert, h.1, ih h.2]

/-- The receive loop, fed fragment datagrams with fresh indices until the
declared total is reached, collects exactly the (index, payload) pairs of
the arrivals in arrival order. -/
theorem recv_multi_loop_collects (total : Nat) (htot : total ≤ 255)
    (arrivals : List (List Nat)) :
    ∀ (pm : List (Nat × List Nat)) (buf : List Nat) (br : Nat),
    (∀ d ∈ arrivals, 10 ≤ d.length ∧ d.length < PACKET_SIZE) →
    pm.length + arrivals.length = total →
    (pm.map Prod.fst ++ arrivals.map frag_idx).Nodup →
    ∃ buf' br', recv_multi_loop total arrivals pm buf br =
      .ok (pm ++ arrivals.map frag_pair, buf', br') := by
  induction arrivals with
  | nil =>
    intro pm buf br _ hlen _
    refine ⟨buf, br, ?_⟩
    simp only [List.length_nil, Nat.add_zero] at hlen
    unfold recv_multi_loop
    rw [if_pos (by rw [Nat.mod_eq_of_lt (by omega)]; omega)]
    simp
  | cons d rest ih =>
    intro pm buf br hh hlen hnd
    have hd := hh d (List.mem_cons_self d rest)
    simp only [List.length_cons] at hlen
    have hmod : pm.length % 256 = pm.length := Nat.mod_eq_of_lt (by omega)
    have h10 : 10 ≤ (pad d).length := by
      rw [pad_length (Nat.le_of_lt hd.2)]; norm_num [PACKET_SIZE]
    unfold recv_multi_loop
    rw [if_neg (by rw [hmod]; omega)]
    rw [get_multipacket_data_eval h10]
    dsimp only
    rw [pad_slice hd.1 hd.2]
    dsimp only
    have hidx9 : (pad d).getD 9 0 = frag_idx d := by
      rw [pad_getD (by omega)]; rfl
    rw [hidx9]
    have hfresh : frag_idx d ∉ pm.map Prod.fst := by
      intro hmem
      exact (List.disjoint_of_nodup_append hnd) hmem
        (by simp only [List.map_cons]; exact List.mem_cons_self _ _)
    have hins : hm_insert (frag_idx d) (d.drop 10 ++ [0]) pm =
        pm ++ [frag_pair d] := hm_insert_fresh hfresh
    rw [hins]
    obtain ⟨buf', br', hrec⟩ := ih (pm ++ [frag_pair d]) (pad d) d.length
      (fun d' hd' => hh d' (List.mem_cons_of_mem _ hd'))
      (by simp only [List.length_append, List.length_singleton]; omega)
      (by
        rw [List.map_append, List.append_assoc]
        simpa [frag_pair] using hnd)
    refine ⟨buf', br', ?_⟩
    rw [hrec]
    simp [List.append_assoc]

/-- Sorting by `key_le` produces a list that is strictly ascending in the
fragment index as soon as the indices are pairwise distinct. -/
theorem sorted_insertionSort_key_lt {l : List (Nat × List Nat)}
    (hnd : (l.map Prod.fst).Nodup) :
    (List.insertionSort key_le l).Pairwise key_lt := by
  have hs : (List.insertionSort key_le l).Pairwise key_le :=
    List.sorted_insertionSort key_le l
  have hperm : List.Perm (List.insertionSort key_le l) l :=
    List.perm_insertionSort key_le l
  have hnd' : ((List.insertionSort key_le l).map Prod.fst).Nodup :=
    (List.Perm.map Prod.fst hperm).symm.nodup hnd
  have hne : (List.insertionSort key_le l).Pairwise (fun a b => a.1 ≠ b.1) :=
    List.pairwise_map.mp hnd'
  exact (hs.and hne).imp fun h => Nat.lt_of_le_of_ne h.1 h.2

/-- With pairwise distinct keys, any two permuted fragment lists sort to the
same list: the key-sorted permutation is unique. -/
theorem insertionSort_eq_of_perm {l l' : List (Nat × List Nat)}
    (hp : List.Perm l l') (hnd : (l.map Prod.fst).Nodup) :
    List.insertionSort key_le l = List.insertionSort key_le l' := by
  have hnd2 : (l'.map Prod.fst).Nodup := (List.Perm.map Prod.fst hp).nodup hnd
  have hp2 : List.Perm (List.insertionSort key_le l) (List.insertionSort key_le l') :=
    (List.perm_insertionSort key_le l).trans
      (hp.trans (List.perm_insertionSort key_le l').symm)
  exact List.eq_of_perm_of_sorted hp2 (sorted_insertionSort_key_lt hnd)
    (sorted_insertionSort_key_lt hnd2)

end server

/-- C3.  Confirmed: for a split response whose fragments (the one already in
hand plus the ones still to arrive, each a well-formed fragment datagram
of 10 to 1399 bytes, with pairwise distinct indices and with the declared
total equal to the fragment count) arrive in ANY order — `d0' :: rest'` is
an arbitrary permutation of the reference arrival `d0 :: rest` — the
reassembled payload is the same and equals the concatenation of the
fragments' payload slices sorted by fragment index, a sorting that is
strictly ascending in the index (first conjunct).  This is the shared
multi-packet branch of `info`/`players`/`rules`
(src/src/lib.rs:713-739, 793-819, 883-909 and `utils::get_multipacket_data`
at 1026-1036). -/
theorem multipacket_reassembly_index_ascending
    (d0 : List Nat) (rest : List (List Nat)) (d0' : List Nat)
    (rest' : List (List Nat))
    (hperm : List.Perm (d0' :: rest') (d0 :: rest))
    (hlen : ∀ d ∈ d0 :: rest, 10 ≤ d.length ∧ d.length < PACKET_SIZE)
    (htot : ∀ d ∈ d0 :: rest, d.getD 8 0 = (d0 :: rest).length)
    (hsmall : (d0 :: rest).length ≤ 255)
    (hidx : ((d0 :: rest).map frag_idx).Nodup) :
    (List.insertionSort key_le ((d0 :: rest).map frag_pair)).Pairwise key_lt ∧
    ∃ buf br, get_multi_packet_payload (pad d0') d0'.length rest' =
      .ok (((List.insertionSort key_le
        ((d0 :: rest).map frag_pair)).map Prod.snd).flatten, buf, br) := by
  have hidx' : ((d0' :: rest').map frag_idx).Nodup :=
    (List.Perm.map frag_idx hperm).symm.nodup hidx
  have hlen' : ∀ d ∈ d0' :: rest', 10 ≤ d.length ∧ d.length < PACKET_SIZE :=
    fun d hd => hlen d ((List.Perm.mem_iff hperm).mp hd)
  have hlencount : (d0' :: rest').length = (d0 :: rest).length :=
    List.Perm.length_eq hperm
  have hd0' := hlen' d0' (List.mem_cons_self d0' rest')
  have h10 : 10 ≤ (pad d0').length := by
    rw [pad_length (Nat.le_of_lt hd0'.2)]; norm_num [PACKET_SIZE]
  refine ⟨sorted_insertionSort_key_lt (by rw [map_fst_frag_pair]; exact hidx), ?_⟩
  unfold get_multi_packet_payload
  rw [get_multipacket_data_eval h10]
  dsimp only
  rw [pad_slice hd0'.1 hd0'.2]
  dsimp only
  have hidx9 : (pad d0').getD 9 0 = frag_idx d0' := by
    rw [pad_getD (by omega)]; rfl
  have htot8 : (pad d0').getD 8 0 = (d0 :: rest).length := by
    rw [pad_getD (by omega)]
    rw [htot d0' ((List.Perm.mem_iff hperm).mp (List.mem_cons_self d0' rest'))]
  rw [hidx9, htot8]
  have hcount : (1 : Nat) + rest'.length = (d0 :: rest).length := by
    simp only [List.length_cons] at hlencount ⊢
    omega
  obtain ⟨buf', br', hrec⟩ := recv_multi_loop_collects ((d0 :: rest).length)
    hsmall rest' [frag_pair d0'] (pad d0') d0'.length
    (fun d hd => hlen' d (List.mem_cons_of_mem _ hd))
    (by simpa using hcount)
    (by simpa [frag_pair] using hidx')
  have hst : ([(frag_idx d0', d0'.drop 10 ++ [0])] : List (Nat × List Nat)) =
      [frag_pair d0'] := rfl
  rw [hst, hrec]
  dsimp only
  have hsort : List.insertionSort key_le ([frag_pair d0'] ++ rest'.map frag_pair) =
      List.insertionSort key_le ((d0 :: rest).map frag_pair) := by
    refine insertionSort_eq_of_perm ?_ ?_
    · have : ([frag_pair d0'] ++ rest'.map frag_pair) =
          (d0' :: rest').map frag_pair := rfl
      rw [this]
      exact List.Perm.map frag_pair hperm
    · rw [show ([frag_pair d0'] ++ rest'.map frag_pair) =
        (d0' :: rest').map frag_pair from rfl, map_fst_frag_pair]
      exact hidx'
  rw [hsort]
  exact ⟨buf', br', rfl⟩

/-- Witness for C3: three 11-byte fragments with declared total 3 and
indices 2, 0, 1 arriving in exactly that order (index 2 in hand, then 0,
then 1, a permutation of the ascending reference arrival) reassemble to
the payload slices of fragments 0, 1, 2 in that ascending-index order:
`[10, 0] ++ [11, 0] ++ [12, 0]`. -/
theorem multipacket_reassembly_index_ascending_witness :
    (List.insertionSort key_le
      ([[255, 255, 255, 254, 0, 0, 0, 0, 3, 0, 10],
        [255, 255, 255, 254, 0, 0, 0, 0, 3, 1, 11],
        [255, 255, 255, 254, 0, 0, 0, 0, 3, 2, 12]].map frag_pair)).Pairwise
      key_lt ∧
    ∃ buf br, get_multi_packet_payload
      (pad [255, 255, 255, 254, 0, 0, 0, 0, 3, 2, 12]) 11
      [[255, 255, 255, 254, 0, 0, 0, 0, 3, 0, 10],
       [255, 255, 255, 254, 0, 0, 0, 0, 3, 1, 11]] =
      .ok ([10, 0, 11, 0, 12, 0], buf, br) := by
  have h := multipacket_reassembly_index_ascending
    [255, 255, 255, 254, 0, 0, 0, 0, 3, 0, 10]
    [[255, 255, 255, 254, 0, 0, 0, 0, 3, 1, 11],
     [255, 255, 255, 254, 0, 0, 0, 0, 3, 2, 12]]
    [255, 255, 255, 254, 0, 0, 0, 0, 3, 2, 12]
    [[255, 255, 255, 254, 0, 0, 0, 0, 3, 0, 10],
     [255, 255, 255, 254, 0, 0, 0, 0, 3, 1, 11]]
    (by decide) (by decide) (by decide) (by decide) (by decide)
  obtain ⟨hp, buf, br, hh⟩ := h
  have he : (((List.insertionSort key_le
      (([[255, 255, 255, 254, 0, 0, 0, 0, 3, 0, 10],
         [255, 255, 255, 254, 0, 0, 0, 0, 3, 1, 11],
         [255, 255, 255, 254, 0, 0, 0, 0, 3, 2, 12]] :
        List (List Nat)).map frag_pair)).map Prod.snd).flatten) =
      [10, 0, 11, 0, 12, 0] := by decide
  rw [he] at hh
  exact ⟨hp, buf, br, hh⟩
